import Mathlib

/-!
Verification of the `goes` Elasticsearch client library (package `goes`,
files `goes.go` / `structs.go`).  The Go code is shallowly embedded: each
Go function used by the specification claims is translated into an
executable Lean definition, byte strings are modelled as `String`
(operated on through their `List Char` data), Go `interface{}` JSON trees
are modelled by the inductive `JValue`, and fallible code returns
`Option`/`Except`.  JSON numerals are modelled as integers: every numeric
literal the claims touch (HTTP statuses, versions, counts) is integral,
the typed envelope's numeric fields are integer-typed in the source, and
fractional floating-point formatting is outside the model.
-/

namespace Goes

/-- Model of a JSON value / a decoded Go `interface{}` tree
(`map[string]interface\x7b\x7d` becomes an ordered association list,
`[]interface\x7b\x7d` a list). -/
inductive JValue where
  | null : JValue
  | bool : Bool → JValue
  | num : Int → JValue
  | str : String → JValue
  | arr : List JValue → JValue
  | obj : List (String × JValue) → JValue
deriving Repr

/-- The decimal digit characters, used to model Go's integer formatting. -/
def digitChar (n : Nat) : Char :=
  match n with
  | 0 => '0' | 1 => '1' | 2 => '2' | 3 => '3' | 4 => '4'
  | 5 => '5' | 6 => '6' | 7 => '7' | 8 => '8' | _ => '9'

/-- Decimal digits of a natural number, most significant first
(model of Go's base-10 integer formatting). -/
def natDigits (n : Nat) (acc : List Char) : List Char :=
  if h : n < 10 then digitChar n :: acc
  else natDigits (n / 10) (digitChar (n % 10) :: acc)
termination_by n
decreasing_by
  exact Nat.div_lt_self (by omega) (by omega)

/-- Model of Go's decimal formatting of a natural number. -/
def natRepr (n : Nat) : String := String.mk (natDigits n [])

/-- Model of Go's decimal formatting of an integer. -/
def intRepr (i : Int) : String :=
  if i < 0 then String.mk ('-' :: natDigits i.natAbs []) else natRepr i.natAbs

/-- Uppercase hexadecimal digit, for percent- and unicode-escapes. -/
def hexDigit (n : Nat) : Char :=
  match n with
  | 0 => '0' | 1 => '1' | 2 => '2' | 3 => '3' | 4 => '4'
  | 5 => '5' | 6 => '6' | 7 => '7' | 8 => '8' | 9 => '9'
  | 10 => 'A' | 11 => 'B' | 12 => 'C' | 13 => 'D' | 14 => 'E' | _ => 'F'

/-- Model of `encoding/json`'s escaping of one character inside a string
literal (Go escapes the quote, the backslash, control characters, and by
default HTML-escapes `<`, `>`, `&`). -/
def jsonEscapeChar (c : Char) : List Char :=
  if c = '"' then ['\\', '"']
  else if c = '\\' then ['\\', '\\']
  else if c = '\n' then ['\\', 'n']
  else if c = '\r' then ['\\', 'r']
  else if c = '\t' then ['\\', 't']
  else if c = '<' then ['\\', 'u', '0', '0', '3', 'c']
  else if c = '>' then ['\\', 'u', '0', '0', '3', 'e']
  else if c = '&' then ['\\', 'u', '0', '0', '2', '6']
  else if c.toNat < 0x20 then
    ['\\', 'u', '0', '0', hexDigit (c.toNat / 16), hexDigit (c.toNat % 16)]
  else [c]

/-- Model of `encoding/json`'s quoting of a Go string. -/
def jsonQuote (s : String) : String :=
  String.mk ('"' :: s.data.flatMap jsonEscapeChar ++ ['"'])

/-- Comma-join of already rendered pieces (inner part of array/object
rendering in `encoding/json`). -/
def commaJoin : List String → String
  | [] => ""
  | x :: rest => rest.foldl (fun acc y => acc ++ "," ++ y) x

mutual

/-- Model of `encoding/json.Marshal` on a decoded JSON tree.  Go marshals
`map[string]interface\x7b\x7d` with its keys sorted; `JValue.obj` lists are
kept as given, so callers sort where Go sorts (see `sortPairs`). -/
def JValue.render : JValue → String
  | .null => "null"
  | .bool true => "true"
  | .bool false => "false"
  | .num i => intRepr i
  | .str s => jsonQuote s
  | .arr xs => "[" ++ commaJoin (JValue.renderList xs) ++ "]"
  | .obj fs => "\x7b" ++ commaJoin (JValue.renderObj fs) ++ "\x7d"

/-- Renders each element of a JSON array. -/
def JValue.renderList : List JValue → List String
  | [] => []
  | x :: rest => JValue.render x :: JValue.renderList rest

/-- Renders each `"key":value` member of a JSON object. -/
def JValue.renderObj : List (String × JValue) → List String
  | [] => []
  | (k, v) :: rest => (jsonQuote k ++ ":" ++ JValue.render v) :: JValue.renderObj rest

end

/-- Lexicographic comparison of character lists, as Go's `sort.Strings`
and `encoding/json` order keys (byte-wise comparison of UTF-8 strings
coincides with code-point order). -/
def charListLe : List Char → List Char → Bool
  | [], _ => true
  | _ :: _, [] => false
  | a :: as, b :: bs => if a = b then charListLe as bs else decide (a < b)

/-- Lexicographic string comparison (model of Go's `<=` on strings). -/
def strLe (a b : String) : Bool := charListLe a.data b.data

/-- Key-wise order on association-list entries, used where Go sorts by key
(`encoding/json` map marshalling, `sort.Strings` in `Values.Encode`). -/
def keyLe {α : Type} (a b : String × α) : Prop := strLe a.1 b.1 = true

instance {α : Type} : DecidableRel (keyLe (α := α)) :=
  fun a b => inferInstanceAs (Decidable (strLe a.1 b.1 = true))

instance {α : Type} : IsTotal (String × α) keyLe := ⟨fun p q => by
  unfold keyLe strLe
  suffices h : ∀ x y : List Char, charListLe x y = true ∨ charListLe y x = true from
    h p.1.data q.1.data
  intro x
  induction x with
  | nil => intro y; left; rfl
  | cons a as ih =>
    intro y
    cases y with
    | nil => right; rfl
    | cons b bs =>
      by_cases hab : a = b
      · subst hab
        rcases ih bs with h | h
        · left; simpa [charListLe] using h
        · right; simpa [charListLe] using h
      · rcases lt_or_gt_of_ne hab with h | h
        · left; simp [charListLe, hab, h]
        · right; simp [charListLe, Ne.symm hab, h]⟩

instance {α : Type} : IsTrans (String × α) keyLe := ⟨fun p q r h1 h2 => by
  unfold keyLe strLe at h1 h2 ⊢
  revert h1 h2
  suffices h : ∀ x y z : List Char, charListLe x y = true → charListLe y z = true →
      charListLe x z = true from h p.1.data q.1.data r.1.data
  intro x
  induction x with
  | nil => intro y z _ _; rfl
  | cons a as ih =>
    intro y z h1 h2
    cases y with
    | nil => simp [charListLe] at h1
    | cons b bs =>
      cases z with
      | nil => simp [charListLe] at h2
      | cons c cs =>
        by_cases hab : a = b <;> by_cases hbc : b = c
        · subst hab; subst hbc
          simp only [charListLe, if_pos rfl] at h1 h2 ⊢
          exact ih bs cs h1 h2
        · subst hab
          simp only [charListLe, if_pos rfl] at h1
          simpa [charListLe, hbc] using h2
        · subst hbc
          simp only [charListLe, if_pos rfl] at h2
          simpa [charListLe, hab] using h1
        · simp only [charListLe, if_neg hab, decide_eq_true_eq] at h1
          simp only [charListLe, if_neg hbc, decide_eq_true_eq] at h2
          have hac : a < c := lt_trans h1 h2
          simp [charListLe, ne_of_lt hac, hac]⟩

/-- Strict key-wise order on association-list entries (used to show the
sorted encoding of a mapping with distinct keys is unique). -/
def keyLt {α : Type} (a b : String × α) : Prop := keyLe a b ∧ a.1 ≠ b.1

instance {α : Type} : IsAntisymm (String × α) keyLt := ⟨fun p q h1 h2 => by
  exfalso
  apply h1.2
  have h1' := h1.1
  have h2' := h2.1
  unfold keyLe strLe at h1' h2'
  revert h1' h2'
  suffices h : ∀ x y : List Char, charListLe x y = true → charListLe y x = true →
      x = y by
    intro h1' h2'
    have hdata := h p.1.data q.1.data h1' h2'
    exact String.ext hdata
  intro x
  induction x with
  | nil =>
    intro y _ h2'
    cases y with
    | nil => rfl
    | cons b bs => simp [charListLe] at h2'
  | cons a as ih =>
    intro y h1' h2'
    cases y with
    | nil => simp [charListLe] at h1'
    | cons b bs =>
      by_cases hab : a = b
      · subst hab
        simp only [charListLe, if_pos rfl] at h1' h2'
        exact congrArg (a :: ·) (ih bs h1' h2')
      · simp only [charListLe, if_neg hab, decide_eq_true_eq] at h1'
        simp only [charListLe, if_neg (Ne.symm hab), decide_eq_true_eq] at h2'
        exact absurd (lt_trans h1' h2') (lt_irrefl a)⟩

/-- Go `encoding/json` marshals a `map[string]interface\x7b\x7d` with its
keys in sorted order. -/
def sortPairs (fs : List (String × JValue)) : List (String × JValue) :=
  List.insertionSort keyLe fs

/-- Model of a Go `interface\x7b\x7d` value supplied as `Document.Fields`:
`nil`, a `map[string]interface\x7b\x7d`, a struct (or pointer to struct,
which `BulkSend` dereferences) given by its marshalled field list, or a
value of any other kind (which `BulkSend` rejects). -/
inductive GoFields where
  | nil : GoFields
  | mapSI : List (String × JValue) → GoFields
  | strukt : List (String × JValue) → GoFields
  | otherKind : GoFields
deriving Repr

/-- Modelled from the spec: the `Document` record (§3 DocumentOperation);
the `structs.go` revision matching `goes.go` is absent from the sources
(an older revision is present).  Field names and their `interface\x7b\x7d`
types follow the uses in `Client.BulkSend` (`Index`, `Type`, `ID` may be
nil, `Fields` is dynamically typed). -/
structure Document where
  Index : JValue := .null
  DocType : String := ""
  ID : JValue := .null
  BulkCommand : String := ""
  Fields : GoFields := .nil
deriving Repr

/-- The action line `json.Marshal`led for one bulk document
(`goes.go` 159–165): `\x7bcommand: \x7b_index, _type, _id\x7d\x7d`, with
the inner map keys in Go's sorted marshalling order. -/
def actionLine (doc : Document) : String :=
  JValue.render (.obj [(doc.BulkCommand,
    .obj [("_id", doc.ID), ("_index", doc.Index), ("_type", .str doc.DocType)])])

/-- The marshalled payload line for a document's fields (maps marshal with
sorted keys, structs in field order); `""` where no payload is marshalled. -/
def fieldsLine (doc : Document) : String :=
  match doc.Fields with
  | .mapSI m => JValue.render (.obj (sortPairs m))
  | .strukt fs => JValue.render (.obj fs)
  | _ => ""

/-- One iteration of the `BulkSend` loop (`goes.go` 158–200): the slots
this document fills — the action line, then the payload line unless
`Fields` is nil or has zero entries; a `Fields` value that is neither a
struct nor a `map[string]interface\x7b\x7d` aborts with the source's
error message. -/
def docLines (doc : Document) : Except String (List String) :=
  match doc.Fields with
  | .nil => .ok [actionLine doc]
  | .mapSI m =>
    if m.length = 0 then .ok [actionLine doc]
    else .ok [actionLine doc, fieldsLine doc]
  | .strukt fs =>
    if fs.length = 0 then .ok [actionLine doc]
    else .ok [actionLine doc, fieldsLine doc]
  | .otherKind =>
    .error "Document fields not in struct or map[string]interface\x7b\x7d format"

/-- Model of `strings.Join` / `bytes.Join`. -/
def goJoin (xs : List String) (sep : String) : String :=
  match xs with
  | [] => ""
  | x :: rest => rest.foldl (fun acc y => acc ++ sep ++ y) x

/-- Model of the body built by `Client.BulkSend` (`goes.go` 136–213): a
slice of `len(documents)*2+1` line slots is allocated, the loop fills a
prefix of it, unfilled slots remain nil (empty), and `bytes.Join` joins
every slot — filled or not — with a newline. -/
def bulkBody (documents : List Document) : Except String String := do
  let liness ← documents.mapM docLines
  let content := liness.flatten
  return goJoin (content ++
    List.replicate (documents.length * 2 + 1 - content.length) "") "\n"

/-- Number of newline-delimited lines of a byte stream: the number of
newline bytes plus one (the length of the split on newlines). -/
def lineCount (s : String) : Nat := s.data.count '\n' + 1

/-- Whether a document's payload line is emitted, as the code decides it
(spec-shaped side of the amended C4): the fields are a map or a struct
with at least one entry — the bulk command is not consulted. -/
def payloadEmitted (doc : Document) : Bool :=
  match doc.Fields with
  | .mapSI m => m.length != 0
  | .strukt fs => fs.length != 0
  | _ => false

/-- Spec-shaped per-operation encoding for the amended C4: the action
line, followed by the payload line exactly when `payloadEmitted`. -/
def specEmittedLines (doc : Document) : List String :=
  if payloadEmitted doc then [actionLine doc, fieldsLine doc]
  else [actionLine doc]

/-- Whether `BulkSend` accepts the kind of a document's `Fields` value
(nil, map, struct — everything but `otherKind`). -/
def validFieldsKind (doc : Document) : Bool :=
  match doc.Fields with
  | .otherKind => false
  | _ => true

/-- Model of `net/url.Values`: an association list from key to the slice
of values.  A Go map has unique keys and no insertion order; the list
order stands in for an insertion order so that order-(in)dependence can be
stated. -/
abbrev Values := List (String × List String)

/-- UTF-8 bytes of a character (Go strings are escaped byte-wise). -/
def utf8Bytes (c : Char) : List Nat :=
  let n := c.toNat
  if n < 0x80 then [n]
  else if n < 0x800 then
    [0xC0 + n / 0x40, 0x80 + n % 0x40]
  else if n < 0x10000 then
    [0xE0 + n / 0x1000, 0x80 + n / 0x40 % 0x40, 0x80 + n % 0x40]
  else
    [0xF0 + n / 0x40000, 0x80 + n / 0x1000 % 0x40, 0x80 + n / 0x40 % 0x40,
      0x80 + n % 0x40]

/-- `%XX` percent-encoding of one byte, uppercase hex as in `net/url`. -/
def pctEncodeByte (b : Nat) : List Char := ['%', hexDigit (b / 16), hexDigit (b % 16)]

/-- The characters `net/url.shouldEscape` never escapes (alphanumerics and
`-_.~`). -/
def isUnreserved (c : Char) : Bool :=
  ('a' ≤ c && c ≤ 'z') || ('A' ≤ c && c ≤ 'Z') || ('0' ≤ c && c ≤ '9') ||
    c == '-' || c == '_' || c == '.' || c == '~'

/-- Model of `net/url.QueryEscape` on one character: unreserved characters
kept, space becomes `+`, everything else percent-encoded byte-wise. -/
def queryEscapeChar (c : Char) : List Char :=
  if isUnreserved c then [c]
  else if c = ' ' then ['+']
  else (utf8Bytes c).flatMap pctEncodeByte

/-- Model of `net/url.QueryEscape`. -/
def queryEscape (s : String) : String := String.mk (s.data.flatMap queryEscapeChar)

/-- The characters `net/url` keeps verbatim in a path (`shouldEscape` with
`encodePath`: unreserved plus `$&+,/:;=@`; in particular `?` is escaped). -/
def isPathSafe (c : Char) : Bool :=
  isUnreserved c || c == '$' || c == '&' || c == '+' || c == ',' || c == '/' ||
    c == ':' || c == ';' || c == '=' || c == '@'

/-- Path escaping of one character (`net/url.escape` with `encodePath`). -/
def pathEscapeChar (c : Char) : List Char :=
  if isPathSafe c then [c] else (utf8Bytes c).flatMap pctEncodeByte

/-- Model of `net/url.URL.EscapedPath` on a path with no `RawPath` set. -/
def pathEscape (s : String) : String := String.mk (s.data.flatMap pathEscapeChar)

/-- The characters `net/url` keeps verbatim in a host (`shouldEscape` with
`encodeHost`); `?` is escaped. -/
def isHostSafe (c : Char) : Bool :=
  isUnreserved c || c == '!' || c == '$' || c == '&' || c == '\'' || c == '(' ||
    c == ')' || c == '*' || c == '+' || c == ',' || c == ';' || c == '=' ||
    c == ':' || c == '[' || c == ']' || c == '<' || c == '>' || c == '"'

/-- Host escaping of one character (`net/url.escape` with `encodeHost`). -/
def hostEscapeChar (c : Char) : List Char :=
  if isHostSafe c then [c] else (utf8Bytes c).flatMap pctEncodeByte

/-- Host escaping as applied by `net/url.URL.String`. -/
def hostEscape (s : String) : String := String.mk (s.data.flatMap hostEscapeChar)

/-- Model of `net/url.Values.Encode`: sort the keys (`sort.Strings`), then
emit one `key=value` pair per value — keys repeated for multi-valued
entries — joined by `&`, with `QueryEscape` applied to keys and values. -/
def Values.encode (v : Values) : String :=
  goJoin ((List.insertionSort keyLe v).flatMap
    (fun kv => kv.2.map (fun w => queryEscape kv.1 ++ "=" ++ queryEscape w))) "&"

/-- Modelled from the spec: the `Client` connection record; the
`structs.go` revision matching `goes.go` is absent from the sources.  The
shape follows `NewClient(host, port)` in `goes.go`; the injected HTTP
transport is the external collaborator (§1) and is not modelled. -/
structure Client where
  Host : String := ""
  Port : String := ""
deriving Repr

/-- Modelled from the spec: the `Request` operation record (§3 Operation);
the `structs.go` revision matching `goes.go` is absent from the sources.
Field names follow their uses in `goes.go` (`Conn`, `Method`, `API`,
`IndexList`, `TypeList`, `ID`, `ExtraArgs`); the body-source fields
(`Query`, `Body`, `BulkData`) belong to the dispatch side of `run`, which
is the unmodelled transport boundary. -/
structure Request where
  Conn : Client := {}
  Method : String := ""
  API : String := ""
  IndexList : List String := []
  TypeList : List String := []
  ID : String := ""
  ExtraArgs : Values := []
deriving Repr

/-- Model of the `net/url.URL` value built by `Request.URL`. -/
structure URLRec where
  Scheme : String := ""
  Host : String := ""
  Path : String := ""
  RawQuery : String := ""
deriving Repr, DecidableEq

/-- Model of `Request.URL` (`goes.go` 434–456): concatenate the path from
the comma-joined index list, the comma-joined type list when non-empty,
the id when non-empty, and the API keyword, then fill a `url.URL` with
scheme `http`, `host:port`, that path and the encoded extra arguments. -/
def Request.URLModel (req : Request) : URLRec :=
  let path0 := "/" ++ goJoin req.IndexList ","
  let path1 :=
    if req.TypeList.length > 0 then path0 ++ "/" ++ goJoin req.TypeList "," else path0
  let path2 := if req.ID.length > 0 then path1 ++ "/" ++ req.ID else path1
  { Scheme := "http",
    Host := req.Conn.Host ++ ":" ++ req.Conn.Port,
    Path := path2 ++ "/" ++ req.API,
    RawQuery := Values.encode req.ExtraArgs }

/-- Model of `net/url.URL.String()` for the URL shape `Request.URL` builds
(scheme and host components set, path starting with `/`, no user info, no
fragment): `scheme://host` with the host escaped, the escaped path, and
`?query` exactly when the raw query is non-empty. -/
def URLRec.render (u : URLRec) : String :=
  u.Scheme ++ "://" ++ hostEscape u.Host ++ pathEscape u.Path ++
    (if u.RawQuery = "" then "" else "?" ++ u.RawQuery)

/-- Modelled from the spec: one entry of the `items` list of a bulk
response (§3 ResponseEnvelope); the `structs.go` revision matching
`goes.go` is absent from the sources (the older revision's `Item` lacks
`Error`/`Status`).  Only the fields `Run`'s classifier consults are
modelled. -/
structure Item where
  Error : String := ""
  Status : Nat := 0
deriving Repr, DecidableEq

/-- Modelled from the spec: the typed response envelope (§3
ResponseEnvelope); the `structs.go` revision matching `goes.go` is absent
from the sources.  Only the fields the claims consult are modelled
(`Error`, `Status`, `Took`, `Errors`, `Items`, and the raw tree `Raw`);
the remaining envelope fields play no role in classification and the
`Run` theorems restrict bodies to the modelled keys. -/
structure Response where
  Error : String := ""
  Status : Nat := 0
  Took : Nat := 0
  Errors : Bool := false
  Items : List (List (String × Item)) := []
  Raw : Option (List (String × JValue)) := none
deriving Repr

/-- One `error`/`status` field assignment when decoding a bulk `Item`:
matching shapes are set, `null` is a no-op, a mismatch records an error. -/
def setItemField (it : Item) (e : Bool) (k : String) (v : JValue) : Item × Bool :=
  if k = "error" then
    match v with
    | .str s => ({ it with Error := s }, e)
    | .null => (it, e)
    | _ => (it, true)
  else if k = "status" then
    match v with
    | .num i => if 0 ≤ i then ({ it with Status := i.toNat }, e) else (it, true)
    | .null => (it, e)
    | _ => (it, true)
  else (it, e)

/-- Field-by-field decode of a bulk `Item` object. -/
def decodeItemFields (it : Item) (e : Bool) : List (String × JValue) → Item × Bool
  | [] => (it, e)
  | (k, v) :: rest =>
    let (it', e') := setItemField it e k v
    decodeItemFields it' e' rest

/-- Decode of one JSON value into an `Item` (`json.Unmarshal` semantics:
object decoded field by field, `null` a no-op, anything else an error that
leaves the zero value). -/
def decodeItemVal (v : JValue) : Item × Bool :=
  match v with
  | .obj fs => decodeItemFields {} false fs
  | .null => ({}, false)
  | _ => ({}, true)

/-- Decode of the entries of one `map[string]Item`. -/
def decodeItemEntries : List (String × JValue) → List (String × Item) × Bool
  | [] => ([], false)
  | (k, v) :: rest =>
    let (it, e1) := decodeItemVal v
    let (ms, e2) := decodeItemEntries rest
    ((k, it) :: ms, e1 || e2)

/-- Decode of one element of the `items` array into a `map[string]Item`. -/
def decodeItemMap (v : JValue) : List (String × Item) × Bool :=
  match v with
  | .obj fs => decodeItemEntries fs
  | .null => ([], false)
  | _ => ([], true)

/-- Decode of the elements of the `items` array (a mismatched element is
recorded and decoding continues, as `encoding/json` does). -/
def decodeItemsList : List JValue → List (List (String × Item)) × Bool
  | [] => ([], false)
  | v :: rest =>
    let (m, e1) := decodeItemMap v
    let (ms, e2) := decodeItemsList rest
    (m :: ms, e1 || e2)

/-- Decode of the `items` value into `[]map[string]Item`. -/
def decodeItems (v : JValue) : List (List (String × Item)) × Bool :=
  match v with
  | .arr xs => decodeItemsList xs
  | _ => ([], true)

/-- One key/value pair of the response body applied to the typed envelope
(one field assignment inside `json.Unmarshal`): matching fields are set,
`null` is a no-op, a mismatched shape records a decode error and decoding
continues, keys that are no envelope field are ignored. -/
def setRespField (r : Response) (e : Bool) (k : String) (v : JValue) :
    Response × Bool :=
  if k = "error" then
    match v with
    | .str s => ({ r with Error := s }, e)
    | .null => (r, e)
    | _ => (r, true)
  else if k = "status" then
    match v with
    | .num i => if 0 ≤ i then ({ r with Status := i.toNat }, e) else (r, true)
    | .null => (r, e)
    | _ => (r, true)
  else if k = "took" then
    match v with
    | .num i => if 0 ≤ i then ({ r with Took := i.toNat }, e) else (r, true)
    | .null => (r, e)
    | _ => (r, true)
  else if k = "errors" then
    match v with
    | .bool b => ({ r with Errors := b }, e)
    | .null => (r, e)
    | _ => (r, true)
  else if k = "items" then
    match v with
    | .null => (r, e)
    | _ =>
      let (its, e') := decodeItems v
      ({ r with Items := its }, e || e')
  else (r, e)

/-- Field-by-field decode of the response body object into the envelope. -/
def decodeFields (r : Response) (e : Bool) : List (String × JValue) → Response × Bool
  | [] => (r, e)
  | (k, v) :: rest =>
    let (r', e') := setRespField r e k v
    decodeFields r' e' rest

/-- Model of the first `json.Unmarshal(body, &esResp)` in `Run`:
best-effort field-by-field decode of a body object into the typed
envelope (mismatches recorded, decoding continues); a top-level `null` is
a no-op; any other top level fails without touching the envelope. -/
def decodeResponse (r : Response) (j : JValue) : Response × Bool :=
  match j with
  | .obj fs => decodeFields r false fs
  | .null => (r, false)
  | _ => (r, true)

/-- Model of the second `json.Unmarshal(body, &esResp.Raw)` in `Run`, into
the untyped `map[string]interface\x7b\x7d` tree: an object sets the map,
`null` is a no-op, anything else is a decode error leaving the map nil. -/
def decodeRaw (j : JValue) : Option (List (String × JValue)) × Bool :=
  match j with
  | .obj fs => (some fs, false)
  | .null => (none, false)
  | _ => (none, true)

/-- Model of the `error` values `Request.Run`/`run` returns: `transport`
is the `errors.New(string(body))` hard failure for anomalous statuses,
`decode` a `json.Unmarshal` failure, `search` a `SearchError` carrying a
message and a status code. -/
inductive GoError where
  | transport : String → GoError
  | decode : GoError
  | search : String → Nat → GoError
deriving Repr, DecidableEq

/-- The body bytes of an HTTP response, abstracted as the raw text paired
with its JSON parse (`none` when the bytes are not valid JSON); this
models the `[]byte` body without re-implementing a JSON parser. -/
structure HttpBody where
  raw : String := ""
  parsed : Option JValue := none

/-- What the injected transport delivered for one exchange: status code
and body (§6 transport boundary). -/
structure HttpResp where
  statusCode : Nat := 0
  body : HttpBody := {}

/-- Inner loop of `Run`'s bulk branch over one `map[string]Item`.  Go map
iteration order is unspecified; the model iterates in entry order, and the
`Run` theorems restrict bulk items to single-command maps, where the
order is irrelevant. -/
def firstInMap : List (String × Item) → Option (String × Nat)
  | [] => none
  | (_, i) :: rest => if i.Error ≠ "" then some (i.Error, i.Status) else firstInMap rest

/-- Outer loop of `Run`'s bulk branch (`goes.go` 370–376): the first
item-level error message found in the per-item result list, with its
item-level status. -/
def findItemError : List (List (String × Item)) → Option (String × Nat)
  | [] => none
  | m :: rest =>
    match firstInMap m with
    | some r => some r
    | none => findItemError rest

/-- The error-classification tail of `Request.Run` (`goes.go` 369–384):
the bulk branch first — when the request targeted `_bulk` and the
envelope's `Errors` flag is set, the scan result or the generic unknown
bulk error decides the call and the top-level `Error` field is never
consulted — then the top-level error paired with the envelope status,
else success. -/
def classify (req : Request) (esResp : Response) : Response × Option GoError :=
  if req.API == "_bulk" && esResp.Errors then
    match findItemError esResp.Items with
    | some (msg, st) => (esResp, some (.search msg st))
    | none => (esResp, some (.search "Unknown error while bulk indexing" 0))
  else if esResp.Error ≠ "" then
    (esResp, some (.search esResp.Error esResp.Status))
  else (esResp, none)

/-- The decode step of `Run` (`goes.go` 358–367) on an already parsed
body: the typed field-by-field unmarshal, returned with its error at once,
then the raw-tree unmarshal, then `classify`. -/
def runDecoded (req : Request) (st : Nat) (j : JValue) : Response × Option GoError :=
  let (r1, e1) := decodeResponse { Status := st } j
  if e1 then (r1, some .decode)
  else
    let (raw, e2) := decodeRaw j
    if e2 then (r1, some .decode)
    else classify req { r1 with Raw := raw }

/-- The non-HEAD body handling of `Run`: a body that is not valid JSON
fails the first unmarshal with the envelope untouched; a parsed body goes
through `runDecoded`. -/
def runBody (req : Request) (h : HttpResp) : Response × Option GoError :=
  match h.body.parsed with
  | none => ({ Status := h.statusCode }, some .decode)
  | some j => runDecoded req h.statusCode j

/-- Model of `Request.Run` composed with `run`'s response handling
(`goes.go` 350–431): a status strictly between 201 and 400 makes `run`
return the raw body as a hard error before any decoding; otherwise the
envelope starts from the transport status and, unless the method is HEAD,
the body is decoded twice (typed envelope, then raw tree) with any
`json.Unmarshal` error returned at once; finally `classify` runs. -/
def Request.RunModel (req : Request) (h : HttpResp) : Response × Option GoError :=
  if 201 < h.statusCode && h.statusCode < 400 then
    ({ Status := h.statusCode }, some (.transport h.body.raw))
  else if req.Method != "HEAD" then
    runBody req h
  else classify req { Status := h.statusCode }

/-- The envelope `Run` hands to the classifier after both unmarshals of a
parsed body succeed: the typed decode result with the raw tree attached. -/
def decodedEnv (st : Nat) (j : JValue) : Response :=
  { (decodeResponse { Status := st } j).1 with Raw := (decodeRaw j).1 }

/-- Model of `Client.IndicesExist` (`goes.go` 516–527): a HEAD request on
the index list; the result is `resp.Status == 200` paired with `Run`'s
error. -/
def Client.IndicesExist (c : Client) (indexes : List String) (h : HttpResp) :
    Bool × Option GoError :=
  let r : Request := { Conn := c, IndexList := indexes, Method := "HEAD" }
  let (resp, err) := r.RunModel h
  (resp.Status == 200, err)

/-- Model of `Client.AliasExists` (`goes.go` 596–607): a HEAD request on
`_alias/<name>`; the result is `resp.Status == 200` paired with `Run`'s
error. -/
def Client.AliasExists (c : Client) (aliasName : String) (h : HttpResp) :
    Bool × Option GoError :=
  let r : Request := { Conn := c, Method := "HEAD", API := "_alias/" ++ aliasName }
  let (resp, err) := r.RunModel h
  (resp.Status == 200, err)

/-- Whether one bulk item's value decodes into the modelled `Item` fields
exactly: an object with keys among `error`/`status` (any other shape is
handled faithfully by the decoder itself). -/
def modelledItemVal (v : JValue) : Bool :=
  match v with
  | .obj fs => fs.all (fun kv => kv.1 == "error" || kv.1 == "status")
  | _ => true

/-- One element of the `items` array: at most one command entry (as the
engine produces, and so that Go's unspecified map iteration order cannot
be observed), each value within the modelled `Item` fragment. -/
def modelledItemsElem (v : JValue) : Bool :=
  match v with
  | .obj fs => fs.length ≤ 1 && fs.all (fun kv => modelledItemVal kv.2)
  | _ => true

/-- The `items` value within the modelled fragment. -/
def modelledItems (v : JValue) : Bool :=
  match v with
  | .arr xs => xs.all modelledItemsElem
  | _ => true

/-- The fragment of response bodies on which the projected envelope model
is exact: a JSON object whose top-level keys are among the modelled
envelope fields (`error`, `status`, `took`, `errors`, `items`), with bulk
items as `modelledItems` demands.  Values of any shape are allowed — shape
mismatches are what C6 is about.  The `Run` theorems quantify over this
fragment. -/
def modelledBody (j : JValue) : Bool :=
  match j with
  | .obj fs =>
    fs.all (fun kv =>
      kv.1 == "error" || kv.1 == "status" || kv.1 == "took" || kv.1 == "errors" ||
        (kv.1 == "items" && modelledItems kv.2))
  | _ => false

/-- Model of the `Aggregation` map type (`map[string]interface\x7b\x7d`).
Modelled from the spec (§3 AggregationNode): the type declaration lives in
the missing `structs.go` revision; its methods are in `goes.go`. -/
abbrev Aggregation := List (String × JValue)

/-- Model of the `Bucket` map type (`map[string]interface\x7b\x7d`),
modelled from the spec (§3) like `Aggregation`. -/
abbrev Bucket := List (String × JValue)

/-- Go map indexing `m[k]` with its `ok` flag, on the association-list
model (a Go map's keys are unique). -/
def goLookup (m : List (String × JValue)) (k : String) : Option JValue :=
  match m with
  | [] => none
  | (k', v) :: rest => if k' = k then some v else goLookup rest k

/-- The `.(map[string]interface\x7b\x7d)` type assertion; `none` models a
panic. -/
def asObj : JValue → Option (List (String × JValue))
  | .obj fs => some fs
  | _ => none

/-- Model of `Aggregation.Buckets` (`goes.go` 459–468): the sequence found
under `"buckets"`, each element asserted to be a map; an absent entry
yields the empty list; `none` models a panic of the `[]interface\x7b\x7d`
or element type assertions. -/
def Aggregation.Buckets (a : Aggregation) : Option (List Bucket) :=
  match goLookup a "buckets" with
  | none => some []
  | some (.arr xs) => xs.mapM asObj
  | some _ => none

/-- Model of `Bucket.Aggregation` (`goes.go` 481–486): the named entry
asserted to be a map, or the empty node when the name is absent; `none`
models a panic of the type assertion. -/
def Bucket.aggregation (b : Bucket) (name : String) : Option Aggregation :=
  match goLookup b name with
  | none => some []
  | some v => asObj v

instance : DecidableEq (Except String String) := fun a b =>
  match a, b with
  | .ok x, .ok y => decidable_of_iff (x = y) (by simp)
  | .error x, .error y => decidable_of_iff (x = y) (by simp)
  | .ok _, .error _ => isFalse (by simp)
  | .error _, .ok _ => isFalse (by simp)

/-- A string is a single "line" of a newline-delimited stream when it
contains no newline byte. -/
def nlFree (s : String) : Prop := '\n' ∉ s.data

instance (s : String) : Decidable (nlFree s) :=
  inferInstanceAs (Decidable ('\n' ∉ s.data))

theorem digitChar_ne_nl (n : Nat) : digitChar n ≠ '\n' := by
  unfold digitChar
  split <;> decide

theorem hexDigit_ne_nl (n : Nat) : hexDigit n ≠ '\n' := by
  unfold hexDigit
  split <;> decide

theorem natDigits_nl_free (n : Nat) (acc : List Char) (hacc : '\n' ∉ acc) :
    '\n' ∉ natDigits n acc := by
  induction n using Nat.strong_induction_on generalizing acc with
  | _ n ih =>
    unfold natDigits
    split
    · intro hmem
      rcases List.mem_cons.mp hmem with h | h
      · exact digitChar_ne_nl n h.symm
      · exact hacc h
    · rename_i h
      refine ih (n / 10) (Nat.div_lt_self (by omega) (by omega)) _ ?_
      intro hmem
      rcases List.mem_cons.mp hmem with h' | h'
      · exact digitChar_ne_nl (n % 10) h'.symm
      · exact hacc h'

theorem natRepr_nlFree (n : Nat) : nlFree (natRepr n) :=
  natDigits_nl_free n [] (by simp)

theorem intRepr_nlFree (i : Int) : nlFree (intRepr i) := by
  unfold intRepr nlFree
  split
  · intro hmem
    rcases List.mem_cons.mp hmem with h | h
    · exact absurd h.symm (by decide)
    · exact natDigits_nl_free i.natAbs [] (by simp) h
  · exact natRepr_nlFree i.natAbs

theorem jsonEscapeChar_nl_free (c : Char) : '\n' ∉ jsonEscapeChar c := by
  unfold jsonEscapeChar
  split
  · decide
  · split
    · decide
    · split
      · decide
      · split
        · decide
        · split
          · decide
          · split
            · decide
            · split
              · decide
              · split
                · decide
                · split
                  · intro hmem
                    simp only [List.mem_cons, List.not_mem_nil, or_false] at hmem
                    rcases hmem with h | h | h | h | h | h
                    all_goals first
                      | exact absurd h (by decide)
                      | exact hexDigit_ne_nl _ h.symm
                  · rename_i h1 h2 h3 h4 h5 h6 h7 h8 h9
                    intro hmem
                    simp only [List.mem_cons, List.not_mem_nil, or_false] at hmem
                    subst hmem
                    exact h9 (by decide)

theorem jsonQuote_nlFree (s : String) : nlFree (jsonQuote s) := by
  unfold jsonQuote nlFree
  intro hmem
  simp only [String.data] at hmem
  rcases List.mem_cons.mp hmem with h | h
  · exact absurd h (by decide)
  · rcases List.mem_append.mp h with h' | h'
    · rcases List.mem_flatMap.mp h' with ⟨c, _, hc⟩
      exact jsonEscapeChar_nl_free c hc
    · simp at h'

theorem nlFree_append {a b : String} (ha : nlFree a) (hb : nlFree b) :
    nlFree (a ++ b) := by
  unfold nlFree at *
  intro hmem
  rw [String.data_append] at hmem
  rcases List.mem_append.mp hmem with h | h
  · exact ha h
  · exact hb h

theorem commaJoin_nlFree (xs : List String) (h : ∀ x ∈ xs, nlFree x) :
    nlFree (commaJoin xs) := by
  match xs with
  | [] => intro hmem; simp [commaJoin, nlFree] at hmem
  | x :: rest =>
    unfold commaJoin
    have : ∀ (l : List String) (acc : String), nlFree acc →
        (∀ y ∈ l, nlFree y) → nlFree (l.foldl (fun acc y => acc ++ "," ++ y) acc) := by
      intro l
      induction l with
      | nil => intro acc hacc _; exact hacc
      | cons z zs ih =>
        intro acc hacc hl
        simp only [List.foldl_cons]
        exact ih _ (nlFree_append (nlFree_append hacc (by decide)) (hl z (by simp)))
          (fun y hy => hl y (by simp [hy]))
    exact this rest x (h x (by simp)) (fun y hy => h y (by simp [hy]))

mutual

theorem render_nlFree : (j : JValue) → nlFree j.render
  | .null => by decide
  | .bool true => by decide
  | .bool false => by decide
  | .num i => intRepr_nlFree i
  | .str s => jsonQuote_nlFree s
  | .arr xs =>
    nlFree_append
      (nlFree_append (by decide) (commaJoin_nlFree _ (renderList_nlFree xs)))
      (by decide)
  | .obj fs =>
    nlFree_append
      (nlFree_append (by decide) (commaJoin_nlFree _ (renderObj_nlFree fs)))
      (by decide)

theorem renderList_nlFree : (xs : List JValue) → ∀ x ∈ JValue.renderList xs, nlFree x
  | [] => by intro x hx; simp [JValue.renderList] at hx
  | j :: rest => by
    intro x hx
    rcases List.mem_cons.mp hx with h | h
    · exact h ▸ render_nlFree j
    · exact renderList_nlFree rest x h

theorem renderObj_nlFree : (fs : List (String × JValue)) →
    ∀ x ∈ JValue.renderObj fs, nlFree x
  | [] => by intro x hx; simp [JValue.renderObj] at hx
  | (k, v) :: rest => by
    intro x hx
    rcases List.mem_cons.mp hx with h | h
    · exact h ▸ nlFree_append (nlFree_append (jsonQuote_nlFree k) (by decide))
        (render_nlFree v)
    · exact renderObj_nlFree rest x h

end

theorem actionLine_nlFree (d : Document) : nlFree (actionLine d) :=
  render_nlFree _

theorem fieldsLine_nlFree (d : Document) : nlFree (fieldsLine d) := by
  unfold fieldsLine
  cases d.Fields with
  | nil => decide
  | mapSI m => exact render_nlFree _
  | strukt fs => exact render_nlFree _
  | otherKind => decide

theorem count_nl_eq_zero {s : String} (h : nlFree s) : s.data.count '\n' = 0 :=
  List.count_eq_zero.mpr h

theorem count_nl_append (a b : String) :
    (a ++ b).data.count '\n' = a.data.count '\n' + b.data.count '\n' := by
  rw [String.data_append, List.count_append]

theorem count_nl_foldl (l : List String) (acc : String) (h : ∀ x ∈ l, nlFree x) :
    (l.foldl (fun a y => a ++ "\n" ++ y) acc).data.count '\n' =
      acc.data.count '\n' + l.length := by
  induction l generalizing acc with
  | nil => simp
  | cons x rest ih =>
    simp only [List.foldl_cons, List.length_cons]
    rw [ih _ (fun y hy => h y (List.mem_cons_of_mem _ hy))]
    rw [count_nl_append, count_nl_append]
    have hx : x.data.count '\n' = 0 := count_nl_eq_zero (h x (List.mem_cons_self _ _))
    have hnl : ("\n" : String).data.count '\n' = 1 := by decide
    omega

theorem count_nl_goJoin (l : List String) (h : ∀ x ∈ l, nlFree x) :
    (goJoin l "\n").data.count '\n' + 1 = l.length ∨ l = [] := by
  match l with
  | [] => exact Or.inr rfl
  | x :: rest =>
    left
    unfold goJoin
    rw [count_nl_foldl rest x (fun y hy => h y (List.mem_cons_of_mem _ hy))]
    rw [count_nl_eq_zero (h x (List.mem_cons_self _ _))]
    simp

theorem docLines_of_validKind (d : Document) (h : validFieldsKind d = true) :
    docLines d = Except.ok (specEmittedLines d) := by
  unfold validFieldsKind at h
  unfold docLines specEmittedLines payloadEmitted
  cases hf : d.Fields with
  | nil => simp
  | mapSI m => cases m <;> simp
  | strukt fs => cases fs <;> simp
  | otherKind => rw [hf] at h; cases h

theorem mapM_docLines (docs : List Document)
    (h : ∀ d ∈ docs, validFieldsKind d = true) :
    docs.mapM docLines = Except.ok (docs.map specEmittedLines) := by
  induction docs with
  | nil => rfl
  | cons d rest ih =>
    rw [List.mapM_cons, docLines_of_validKind d (h d (List.mem_cons_self _ _)),
      ih (fun x hx => h x (List.mem_cons_of_mem _ hx))]
    rfl

theorem bulkBody_spec (docs : List Document)
    (h : ∀ d ∈ docs, validFieldsKind d = true) :
    bulkBody docs = Except.ok (goJoin (docs.flatMap specEmittedLines ++
      List.replicate
        (docs.length * 2 + 1 - (docs.flatMap specEmittedLines).length) "") "\n") := by
  unfold bulkBody
  rw [mapM_docLines docs h]
  rfl

theorem flatMap_pair_congr (docs : List Document)
    (h : ∀ d ∈ docs, payloadEmitted d = true) :
    docs.flatMap specEmittedLines =
      docs.flatMap (fun d => [actionLine d, fieldsLine d]) := by
  induction docs with
  | nil => rfl
  | cons d rest ih =>
    rw [List.flatMap_cons, List.flatMap_cons,
      ih (fun x hx => h x (List.mem_cons_of_mem _ hx))]
    unfold specEmittedLines
    rw [h d (List.mem_cons_self _ _)]
    rfl

theorem flatMap_pair_length (docs : List Document) :
    (docs.flatMap (fun d => [actionLine d, fieldsLine d])).length =
      2 * docs.length := by
  induction docs with
  | nil => rfl
  | cons d rest ih =>
    rw [List.flatMap_cons, List.length_append, ih]
    simp [Nat.mul_add, Nat.add_comm]

/-- C3: bulk encoding of an empty operation sequence yields exactly one
line (the mandatory trailing empty line); bulk encoding of N operations,
none a delete and each carrying a non-empty field payload, yields exactly
2N+1 lines — one action line and one payload line per operation, in input
order, followed by the trailing empty line. -/
theorem c3_bulk_line_counts :
    (bulkBody [] = Except.ok "" ∧ lineCount "" = 1) ∧
    ∀ docs : List Document,
      (∀ d ∈ docs, d.BulkCommand ≠ "delete") →
      (∀ d ∈ docs, payloadEmitted d = true) →
      ∃ s, bulkBody docs = Except.ok s ∧
        s = goJoin
          (docs.flatMap (fun d => [actionLine d, fieldsLine d]) ++ [""]) "\n" ∧
        lineCount s = 2 * docs.length + 1 := by
  constructor
  · exact ⟨rfl, rfl⟩
  intro docs _ hpay
  have hvk : ∀ d ∈ docs, validFieldsKind d = true := by
    intro d hd
    have hp := hpay d hd
    cases hf : d.Fields <;> simp_all [payloadEmitted, validFieldsKind]
  have hb := bulkBody_spec docs hvk
  rw [flatMap_pair_congr docs hpay, flatMap_pair_length docs] at hb
  have hone : docs.length * 2 + 1 - 2 * docs.length = 1 := by omega
  rw [hone] at hb
  have hrep : List.replicate 1 ("" : String) = [""] := rfl
  rw [hrep] at hb
  refine ⟨_, hb, rfl, ?_⟩
  have hnl : ∀ x ∈ docs.flatMap (fun d => [actionLine d, fieldsLine d]) ++ [""],
      nlFree x := by
    intro x hx
    rcases List.mem_append.mp hx with hx' | hx'
    · rcases List.mem_flatMap.mp hx' with ⟨d, _, hx''⟩
      rcases List.mem_cons.mp hx'' with h' | h'
      · exact h' ▸ actionLine_nlFree d
      · rcases List.mem_cons.mp h' with h'' | h''
        · exact h'' ▸ fieldsLine_nlFree d
        · simp at h''
    · have : x = "" := by simpa using hx'
      exact this ▸ (by decide : nlFree "")
  rcases count_nl_goJoin _ hnl with hc | hc
  · unfold lineCount
    rw [hc, List.length_append, flatMap_pair_length docs]
    rfl
  · exact absurd hc (by simp)

/-- The C4 counterexample document: a delete command that carries a
non-empty field payload. -/
def c4doc : Document :=
  { Index := .str "idx", DocType := "t", ID := .str "1",
    BulkCommand := "delete", Fields := .mapSI [("a", .str "b")] }

/-- C4 counterexample: for a delete operation whose `Fields` payload is a
non-empty map, the payload line is NOT omitted — the encoded stream is the
action line followed by the payload line, contradicting "omitted entirely
when the operation's command is delete". -/
theorem c4_delete_payload_counterexample :
    c4doc.BulkCommand = "delete" ∧
    bulkBody [c4doc] =
      Except.ok (actionLine c4doc ++ "\n" ++ fieldsLine c4doc ++ "\n") ∧
    fieldsLine c4doc ≠ "" ∧
    bulkBody [c4doc] ≠ Except.ok (actionLine c4doc ++ "\n") := by
  refine ⟨rfl, ?_, ?_, ?_⟩ <;> decide

/-- C4 (amended): the payload line after an action line is emitted exactly
when the operation's `Fields` payload is a map or struct with at least one
entry — the bulk command is not consulted, so a delete carrying a
non-empty payload emits a payload line while any operation with an absent
or empty payload (deletes as the library builds them included) is encoded
metadata-only; each skipped payload line leaves one additional empty line
before the mandatory trailing empty line, because the encoder reserves
`2N+1` line slots and joins them all. -/
theorem c4_payload_omission_amended (docs : List Document)
    (h : ∀ d ∈ docs, validFieldsKind d = true) :
    bulkBody docs = Except.ok (goJoin (docs.flatMap specEmittedLines ++
      List.replicate
        (docs.length * 2 + 1 - (docs.flatMap specEmittedLines).length) "") "\n") :=
  bulkBody_spec docs h

/-- The delete document (no payload) used by the C4 witness. -/
def c4del : Document :=
  { Index := .str "i", DocType := "t", ID := .str "1",
    BulkCommand := "delete", Fields := .nil }

/-- C4 witness: the amended statement at a single payload-free delete —
the action line is followed by two empty lines (the skipped payload slot
and the mandatory trailing line). -/
theorem c4_payload_omission_amended_witness :
    bulkBody [c4del] = Except.ok (actionLine c4del ++ "\n\n") :=
  (c4_payload_omission_amended [c4del] (by decide)).trans (by decide)

/-- The documents used by the C3 witness: two index operations with
non-empty payloads. -/
def c3docs : List Document :=
  [{ Index := .str "idx", DocType := "tweet", ID := .str "123",
     BulkCommand := "index", Fields := .mapSI [("user", .str "foo")] },
   { Index := .str "idx", DocType := "tweet", ID := .null,
     BulkCommand := "index", Fields := .mapSI [("user", .str "bar")] }]

/-- C3 witness: two non-delete operations with non-empty payloads encode
to exactly five lines. -/
theorem c3_bulk_line_counts_witness :
    bulkBody c3docs = Except.ok
      (goJoin (c3docs.flatMap (fun d => [actionLine d, fieldsLine d]) ++ [""]) "\n") ∧
    lineCount (goJoin
      (c3docs.flatMap (fun d => [actionLine d, fieldsLine d]) ++ [""]) "\n") = 5 := by
  obtain ⟨s, h1, h2, h3⟩ := c3_bulk_line_counts.2 c3docs (by decide) (by decide)
  subst h2
  exact ⟨h1, h3⟩

theorem intercalate_go_eq_foldl (s : String) (l : List String) (acc : String) :
    String.intercalate.go acc s l = l.foldl (fun a y => a ++ s ++ y) acc := by
  induction l generalizing acc with
  | nil => rfl
  | cons x rest ih => rw [String.intercalate.go, List.foldl_cons, ih]

theorem goJoin_eq_intercalate (xs : List String) (sep : String) :
    goJoin xs sep = String.intercalate sep xs := by
  match xs with
  | [] => rfl
  | x :: rest =>
    rw [String.intercalate, intercalate_go_eq_foldl]
    rfl

theorem hexDigit_ne_qm (n : Nat) : hexDigit n ≠ '?' := by
  unfold hexDigit
  split <;> decide

theorem pct_no_qm (b : Nat) : '?' ∉ pctEncodeByte b := by
  intro h
  simp only [pctEncodeByte, List.mem_cons, List.not_mem_nil, or_false] at h
  rcases h with h | h | h
  · exact absurd h (by decide)
  · exact hexDigit_ne_qm _ h.symm
  · exact hexDigit_ne_qm _ h.symm

theorem hostEscape_no_qm (s : String) : '?' ∉ (hostEscape s).data := by
  intro h
  rcases List.mem_flatMap.mp h with ⟨c, _, hc⟩
  unfold hostEscapeChar at hc
  split at hc
  · rename_i hsafe
    simp only [List.mem_singleton] at hc
    subst hc
    exact absurd hsafe (by decide)
  · rcases List.mem_flatMap.mp hc with ⟨b, _, hb⟩
    exact pct_no_qm b hb

theorem pathEscape_no_qm (s : String) : '?' ∉ (pathEscape s).data := by
  intro h
  rcases List.mem_flatMap.mp h with ⟨c, _, hc⟩
  unfold pathEscapeChar at hc
  split at hc
  · rename_i hsafe
    simp only [List.mem_singleton] at hc
    subst hc
    exact absurd hsafe (by decide)
  · rcases List.mem_flatMap.mp hc with ⟨b, _, hb⟩
    exact pct_no_qm b hb

theorem length_pos_of_ne_empty (s : String) (h : s ≠ "") : s.length > 0 := by
  cases s with
  | mk data =>
    cases data with
    | nil => exact absurd rfl h
    | cons c cs => simp [String.length]

theorem render_no_qm (u : URLRec) (hS : u.Scheme = "http") (hq : u.RawQuery = "") :
    '?' ∉ (URLRec.render u).data := by
  unfold URLRec.render
  rw [hS, hq]
  simp only [if_pos rfl]
  intro hmem
  rw [String.data_append, String.data_append, String.data_append] at hmem
  rcases List.mem_append.mp hmem with h | h
  · rcases List.mem_append.mp h with h' | h'
    · rcases List.mem_append.mp h' with h'' | h''
      · revert h''
        decide
      · exact hostEscape_no_qm _ h''
    · exact pathEscape_no_qm _ h'
  · simp at h

/-- C7: the built URL's path is `/` + comma-joined indices, then `/` +
comma-joined types when the type list is non-empty, then `/` + id when an
id is present, then `/` + the API keyword (possibly empty, leaving a
trailing slash); and with an empty extra-parameter mapping the rendered
URL contains no `?` at all — in particular no trailing one. -/
theorem c7_url_path_and_query (req : Request) :
    req.URLModel.Path =
      "/" ++ String.intercalate "," req.IndexList ++
        (if req.TypeList = [] then "" else "/" ++ String.intercalate "," req.TypeList) ++
        (if req.ID = "" then "" else "/" ++ req.ID) ++ "/" ++ req.API ∧
    (req.ExtraArgs = [] → '?' ∉ (URLRec.render req.URLModel).data) := by
  constructor
  · unfold Request.URLModel
    rw [← goJoin_eq_intercalate, ← goJoin_eq_intercalate]
    by_cases ht : req.TypeList = [] <;> by_cases hid : req.ID = ""
    · have ht' : ¬ req.TypeList.length > 0 := by simp [ht]
      have hid' : ¬ req.ID.length > 0 := by simp [hid]
      simp only [ht, hid, ht', hid', if_neg, if_pos, ite_false, ite_true]
      simp [String.append_assoc]
    · have ht' : ¬ req.TypeList.length > 0 := by simp [ht]
      have hid' : req.ID.length > 0 := length_pos_of_ne_empty _ hid
      simp only [ht, hid, ht', hid', ite_true, ite_false, if_pos, if_neg]
      simp [String.append_assoc]
    · have ht' : req.TypeList.length > 0 := List.length_pos.mpr ht
      have hid' : ¬ req.ID.length > 0 := by simp [hid]
      simp only [ht, hid, ht', hid', ite_true, ite_false, if_pos, if_neg]
      simp [String.append_assoc]
    · have ht' : req.TypeList.length > 0 := List.length_pos.mpr ht
      have hid' : req.ID.length > 0 := length_pos_of_ne_empty _ hid
      simp only [ht, hid, ht', hid', ite_true, ite_false, if_pos, if_neg]
      simp [String.append_assoc]
  · intro he
    refine render_no_qm _ rfl ?_
    show Values.encode req.ExtraArgs = ""
    rw [he]
    rfl

/-- The request used by the C7 witness (mirrors the repository's URL
test values). -/
def c7req : Request :=
  { Conn := { Host := "localhost", Port := "9200" }, Method := "GET",
    API := "_search", IndexList := ["a", "b"], TypeList := ["c", "d"],
    ExtraArgs := [] }

/-- C7 witness: indices `a,b`, types `c,d` and API `_search` produce the
path `/a,b/c,d/_search`, and the rendered URL with no extra parameters
contains no `?`. -/
theorem c7_url_path_and_query_witness :
    c7req.URLModel.Path = "/a,b/c,d/_search" ∧
    '?' ∉ (URLRec.render c7req.URLModel).data := by
  have h := c7_url_path_and_query c7req
  exact ⟨h.1.trans (by decide), h.2 rfl⟩

/-- C8 counterexample: a mapping whose insertion order is `b` before `a`
encodes with `a` first — `Values.Encode` sorts keys, it does not preserve
the mapping's insertion order. -/
theorem c8_query_insertion_order_counterexample :
    Values.encode [("b", ["1"]), ("a", ["2"])] = "a=2&b=1" ∧
    "a=2&b=1" ≠ "b=1&a=2" := by
  exact ⟨by decide, by decide⟩

/-- C8 (amended): the query string is a stable encoding of the mapping —
multi-valued keys are preserved as repeated keys in value order, keys and
values are percent-encoded — but the key order is lexicographically
sorted, not the mapping's insertion order: any two insertion orders of
the same mapping (distinct keys, as in a Go map) encode identically. -/
theorem c8_query_encoding_amended :
    (∀ v₁ v₂ : Values, v₁.Perm v₂ → (v₁.map Prod.fst).Nodup →
      Values.encode v₁ = Values.encode v₂) ∧
    Values.encode [("k", ["a b", "c/d"])] = "k=a+b&k=c%2Fd" := by
  constructor
  · intro v₁ v₂ hp hnd
    unfold Values.encode
    have h0 : v₁.Pairwise (fun a b => a.1 ≠ b.1) := List.pairwise_map.mp hnd
    have hperm : (List.insertionSort keyLe v₁).Perm (List.insertionSort keyLe v₂) :=
      ((List.perm_insertionSort keyLe v₁).trans hp).trans
        (List.perm_insertionSort keyLe v₂).symm
    have hnd₁ : (List.insertionSort keyLe v₁).Pairwise (fun a b => a.1 ≠ b.1) :=
      (List.Perm.pairwise_iff (fun h => Ne.symm h) (List.perm_insertionSort keyLe v₁)).mpr h0
    have hnd₂ : (List.insertionSort keyLe v₂).Pairwise (fun a b => a.1 ≠ b.1) :=
      (List.Perm.pairwise_iff (fun h => Ne.symm h) (List.perm_insertionSort keyLe v₂)).mpr
        ((List.Perm.pairwise_iff (fun h => Ne.symm h) hp).mp h0)
    have hlt₁ : (List.insertionSort keyLe v₁).Pairwise keyLt :=
      (List.Pairwise.and (List.sorted_insertionSort keyLe v₁) hnd₁).imp
        (fun h => h)
    have hlt₂ : (List.insertionSort keyLe v₂).Pairwise keyLt :=
      (List.Pairwise.and (List.sorted_insertionSort keyLe v₂) hnd₂).imp
        (fun h => h)
    rw [List.eq_of_perm_of_sorted hperm hlt₁ hlt₂]
  · decide

/-- C8 witness: the amended statement at a two-key mapping given in both
insertion orders. -/
theorem c8_query_encoding_amended_witness :
    Values.encode [("b", ["1"]), ("a", ["2"])] =
      Values.encode [("a", ["2"]), ("b", ["1"])] :=
  c8_query_encoding_amended.1 _ _ (by decide) (by decide)

theorem mapM_asObj (ms : List (List (String × JValue))) :
    (ms.map JValue.obj).mapM asObj = some ms := by
  induction ms with
  | nil => rfl
  | cons m rest ih =>
    rw [List.map_cons, List.mapM_cons, ih]
    rfl

/-- C9: `Buckets()` returns the sequence found under the `buckets` entry
wrapped as buckets, and the empty sequence — never an error — when the
entry is absent; `Aggregation(name)` on a bucket returns the named nested
node, and the empty node — never null — when the name is absent, so
lookups chain without nil checks. -/
theorem c9_aggregation_traversal (a : Aggregation) (b : Bucket) (name : String) :
    (goLookup a "buckets" = none → a.Buckets = some []) ∧
    (∀ ms : List (List (String × JValue)),
      goLookup a "buckets" = some (JValue.arr (ms.map JValue.obj)) →
      a.Buckets = some ms) ∧
    (goLookup b name = none → b.aggregation name = some []) ∧
    (∀ m, goLookup b name = some (JValue.obj m) → b.aggregation name = some m) := by
  refine ⟨?_, ?_, ?_, ?_⟩
  · intro h
    unfold Aggregation.Buckets
    rw [h]
  · intro ms h
    unfold Aggregation.Buckets
    rw [h]
    exact mapM_asObj ms
  · intro h
    unfold Bucket.aggregation
    rw [h]
  · intro m h
    unfold Bucket.aggregation
    rw [h]
    rfl

/-- The bucket of the spec's aggregation example, used by the C9
witness. -/
def c9bucket : Bucket :=
  [("key", JValue.str "foo"), ("doc_count", JValue.num 3),
   ("age", JValue.obj [("count", JValue.num 1), ("sum", JValue.num 25)])]

/-- C9 witness: a node without `buckets` yields the empty sequence, a node
with one bucket yields it, and on the spec's example bucket the nested
`age` aggregation is returned while a missing name yields the empty
node. -/
theorem c9_aggregation_traversal_witness :
    Aggregation.Buckets [("x", JValue.null)] = some [] ∧
    Aggregation.Buckets [("buckets", JValue.arr [JValue.obj [("key", JValue.str "a")]])]
      = some [[("key", JValue.str "a")]] ∧
    Bucket.aggregation c9bucket "age" =
      some [("count", JValue.num 1), ("sum", JValue.num 25)] ∧
    Bucket.aggregation c9bucket "missing" = some [] :=
  ⟨(c9_aggregation_traversal [("x", JValue.null)] [] "").1 rfl,
    (c9_aggregation_traversal
      [("buckets", JValue.arr [JValue.obj [("key", JValue.str "a")]])] [] "").2.1
      [[("key", JValue.str "a")]] rfl,
    (c9_aggregation_traversal [] c9bucket "age").2.2.2
      [("count", JValue.num 1), ("sum", JValue.num 25)] rfl,
    (c9_aggregation_traversal [] c9bucket "missing").2.2.1 rfl⟩

theorem modelledBody_obj (j : JValue) (h : modelledBody j = true) :
    ∃ fs, j = JValue.obj fs := by
  cases j <;> first | exact ⟨_, rfl⟩ | simp [modelledBody] at h

theorem runModel_not_anomalous (req : Request) (h : HttpResp)
    (hs : ¬(201 < h.statusCode ∧ h.statusCode < 400))
    (hm : req.Method ≠ "HEAD") :
    req.RunModel h = runBody req h := by
  have h1 : ¬((201 < h.statusCode && h.statusCode < 400) = true) := by simpa using hs
  have h2 : (req.Method != "HEAD") = true := by simpa [bne_iff_ne] using hm
  unfold Request.RunModel
  rw [if_neg h1, if_pos h2]

theorem runBody_parsed (req : Request) (h : HttpResp) (j : JValue)
    (hp : h.body.parsed = some j) :
    runBody req h = runDecoded req h.statusCode j := by
  unfold runBody
  rw [hp]

theorem runDecoded_ok (req : Request) (st : Nat) (fs : List (String × JValue))
    (hd : (decodeResponse { Status := st } (JValue.obj fs)).2 = false) :
    runDecoded req st (JValue.obj fs) =
      classify req (decodedEnv st (JValue.obj fs)) := by
  unfold runDecoded decodedEnv
  rw [show decodeResponse { Status := st } (JValue.obj fs) =
    ((decodeResponse { Status := st } (JValue.obj fs)).1, false) from Prod.ext rfl hd]
  rfl

theorem runDecoded_err (req : Request) (st : Nat) (j : JValue)
    (hd : (decodeResponse { Status := st } j).2 = true) :
    runDecoded req st j =
      ((decodeResponse { Status := st } j).1, some GoError.decode) := by
  unfold runDecoded
  rw [show decodeResponse { Status := st } j =
    ((decodeResponse { Status := st } j).1, true) from Prod.ext rfl hd]
  rfl

theorem runModel_head (req : Request) (h : HttpResp)
    (hs : ¬(201 < h.statusCode ∧ h.statusCode < 400))
    (hm : req.Method = "HEAD") :
    req.RunModel h = classify req { Status := h.statusCode } := by
  have h1 : ¬((201 < h.statusCode && h.statusCode < 400) = true) := by simpa using hs
  have h2 : ¬((req.Method != "HEAD") = true) := by simp [hm]
  unfold Request.RunModel
  rw [if_neg h1, if_neg h2]

theorem classify_bulk (req : Request) (env : Response)
    (hb : req.API = "_bulk") (he : env.Errors = true) :
    classify req env =
      match findItemError env.Items with
      | some (msg, st) => (env, some (GoError.search msg st))
      | none => (env, some (GoError.search "Unknown error while bulk indexing" 0)) := by
  unfold classify
  rw [if_pos (by simp [hb, he])]

theorem classify_nonbulk (req : Request) (env : Response)
    (hnb : ¬(req.API = "_bulk" ∧ env.Errors = true)) :
    classify req env =
      if env.Error ≠ "" then (env, some (GoError.search env.Error env.Status))
      else (env, none) := by
  have h1 : ¬((req.API == "_bulk" && env.Errors) = true) := by
    intro hcond
    rw [Bool.and_eq_true] at hcond
    exact hnb ⟨by simpa using hcond.1, hcond.2⟩
  unfold classify
  rw [if_neg h1]

theorem classify_plain (req : Request) (env : Response)
    (hE : env.Errors = false) (he : env.Error = "") :
    classify req env = (env, none) := by
  have h1 : ¬((req.API == "_bulk" && env.Errors) = true) := by simp [hE]
  have h2 : ¬(env.Error ≠ "") := by simp [he]
  unfold classify
  rw [if_neg h1, if_neg h2]

theorem firstInMap_none_iff (m : List (String × Item)) :
    firstInMap m = none ↔ ∀ p ∈ m, p.2.Error = "" := by
  induction m with
  | nil => simp [firstInMap]
  | cons p rest ih =>
    obtain ⟨k, i⟩ := p
    by_cases hi : i.Error = ""
    · simp [firstInMap, hi, ih]
    · constructor
      · intro hf
        unfold firstInMap at hf
        rw [if_pos hi] at hf
        cases hf
      · intro hall
        exact absurd (hall (k, i) (List.mem_cons_self _ _)) hi

theorem findItemError_none_iff (items : List (List (String × Item))) :
    findItemError items = none ↔ ∀ m ∈ items, ∀ p ∈ m, p.2.Error = "" := by
  induction items with
  | nil => simp [findItemError]
  | cons m rest ih =>
    constructor
    · intro h
      unfold findItemError at h
      cases hf : firstInMap m with
      | some r => rw [hf] at h; cases h
      | none =>
        rw [hf] at h
        intro n hn p hp
        rcases List.mem_cons.mp hn with rfl | hn
        · exact (firstInMap_none_iff n).mp hf p hp
        · exact (ih.mp h) n hn p hp
    · intro hall
      unfold findItemError
      have hf : firstInMap m = none :=
        (firstInMap_none_iff m).mpr (fun p hp => hall m (List.mem_cons_self _ _) p hp)
      rw [hf]
      exact ih.mpr (fun n hn p hp => hall n (List.mem_cons_of_mem _ hn) p hp)

theorem findItemError_append (pre : List (List (String × Item)))
    (m : List (String × Item)) (rest : List (List (String × Item)))
    (msg : String) (st : Nat)
    (hpre : ∀ mm ∈ pre, ∀ p ∈ mm, p.2.Error = "")
    (hm : firstInMap m = some (msg, st)) :
    findItemError (pre ++ m :: rest) = some (msg, st) := by
  induction pre with
  | nil =>
    rw [List.nil_append]
    unfold findItemError
    rw [hm]
  | cons q qre ih =>
    have hq : firstInMap q = none :=
      (firstInMap_none_iff q).mpr (fun p hp => hpre q (List.mem_cons_self _ _) p hp)
    rw [List.cons_append]
    unfold findItemError
    rw [hq]
    exact ih (fun mm hmm p hp => hpre mm (List.mem_cons_of_mem _ hmm) p hp)

theorem setRespField_raw (r : Response) (e : Bool) (k : String) (v : JValue) :
    ((setRespField r e k v).1).Raw = r.Raw := by
  unfold setRespField
  repeat' split
  all_goals rfl

theorem decodeFields_raw (fs : List (String × JValue)) (r : Response) (e : Bool) :
    ((decodeFields r e fs).1).Raw = r.Raw := by
  induction fs generalizing r e with
  | nil => rfl
  | cons kv rest ih =>
    obtain ⟨k, v⟩ := kv
    show ((decodeFields (setRespField r e k v).1 (setRespField r e k v).2 rest).1).Raw
      = r.Raw
    rw [ih, setRespField_raw]

theorem decodeResponse_raw (r : Response) (j : JValue) :
    ((decodeResponse r j).1).Raw = r.Raw := by
  unfold decodeResponse
  cases j <;> first | rfl | exact decodeFields_raw _ _ _

/-- C5: a transport status strictly between 201 and 400 is a hard
failure: the call returns the raw response body as the error text, and
the envelope holds only the transport status — no decoded content. -/
theorem c5_anomalous_status_hard_failure (req : Request) (h : HttpResp)
    (hs : 201 < h.statusCode ∧ h.statusCode < 400) :
    req.RunModel h =
      ({ Status := h.statusCode }, some (GoError.transport h.body.raw)) := by
  unfold Request.RunModel
  rw [if_pos (by simpa using hs)]

/-- C5 witness: a 302 whose body is `redirect` fails hard with exactly
that body as the message and an envelope holding only status 302. -/
theorem c5_anomalous_status_hard_failure_witness :
    Request.RunModel { Method := "GET" }
        { statusCode := 302, body := { raw := "redirect", parsed := none } } =
      ({ Status := 302 }, some (GoError.transport "redirect")) :=
  c5_anomalous_status_hard_failure _ _ (by decide)

/-- C1: for a successfully decoded bulk-endpoint response whose `errors`
flag is set, the call returns the first item-level error (message paired
with the item-level status) scanned in list order — the generic
unknown-bulk-error with status 0 when no item carries a message — and the
top-level error field is never consulted (the conclusion determines the
result from the items alone, whatever `Error` decoded to). -/
theorem c1_bulk_error_priority (req : Request) (h : HttpResp) (j : JValue)
    (hs : ¬(201 < h.statusCode ∧ h.statusCode < 400))
    (hm : req.Method ≠ "HEAD")
    (hp : h.body.parsed = some j)
    (hmb : modelledBody j = true)
    (hd : (decodeResponse { Status := h.statusCode } j).2 = false)
    (hb : req.API = "_bulk")
    (he : (decodedEnv h.statusCode j).Errors = true) :
    (∀ msg st, findItemError (decodedEnv h.statusCode j).Items = some (msg, st) →
      req.RunModel h = (decodedEnv h.statusCode j, some (GoError.search msg st))) ∧
    (findItemError (decodedEnv h.statusCode j).Items = none →
      req.RunModel h = (decodedEnv h.statusCode j,
        some (GoError.search "Unknown error while bulk indexing" 0))) ∧
    (∀ items : List (List (String × Item)),
      findItemError items = none ↔ ∀ m ∈ items, ∀ p ∈ m, p.2.Error = "") ∧
    (∀ pre m rest msg st,
      (∀ mm ∈ pre, ∀ p ∈ mm, p.2.Error = "") →
      firstInMap m = some (msg, st) →
      findItemError (pre ++ m :: rest) = some (msg, st)) := by
  obtain ⟨fs, rfl⟩ := modelledBody_obj j hmb
  have hrun : req.RunModel h =
      classify req (decodedEnv h.statusCode (JValue.obj fs)) := by
    rw [runModel_not_anomalous req h hs hm, runBody_parsed req h _ hp,
      runDecoded_ok req h.statusCode fs hd]
  refine ⟨?_, ?_, findItemError_none_iff, findItemError_append⟩
  · intro msg st hfind
    rw [hrun, classify_bulk req _ hb he, hfind]
  · intro hfind
    rw [hrun, classify_bulk req _ hb he, hfind]

/-- The bulk response body of the C1 witness: HTTP 200 with
`errors: true` and a single `index` item of status 409, error
`conflict`. -/
def c1body : JValue :=
  .obj [("errors", .bool true),
    ("items", .arr [.obj [("index",
      .obj [("status", .num 409), ("error", .str "conflict")])]])]

/-- C1 witness: the bulk body with one conflicting item classifies as the
item-level error `conflict` with status 409, though the transport said
200. -/
theorem c1_bulk_error_priority_witness :
    (Request.RunModel { Method := "POST", API := "_bulk" }
      { statusCode := 200, body := { raw := "", parsed := some c1body } }).2 =
      some (GoError.search "conflict" 409) := by
  have hc := c1_bulk_error_priority { Method := "POST", API := "_bulk" }
    { statusCode := 200, body := { raw := "", parsed := some c1body } } c1body
    (by decide) (by decide) rfl (by decide) (by decide) rfl (by decide)
  rw [hc.1 "conflict" 409 (by decide)]

/-- C2: for a successfully decoded response outside the bulk branch, a
non-empty top-level error message is returned paired with the envelope's
status code (the decoded `status` field when the body carries one, the
transport status otherwise), and with an empty message the call succeeds,
returning the envelope unchanged. -/
theorem c2_top_level_error (req : Request) (h : HttpResp) (j : JValue)
    (hs : ¬(201 < h.statusCode ∧ h.statusCode < 400))
    (hm : req.Method ≠ "HEAD")
    (hp : h.body.parsed = some j)
    (hmb : modelledBody j = true)
    (hd : (decodeResponse { Status := h.statusCode } j).2 = false)
    (hnb : ¬(req.API = "_bulk" ∧ (decodedEnv h.statusCode j).Errors = true)) :
    ((decodedEnv h.statusCode j).Error ≠ "" →
      req.RunModel h = (decodedEnv h.statusCode j,
        some (GoError.search (decodedEnv h.statusCode j).Error
          (decodedEnv h.statusCode j).Status))) ∧
    ((decodedEnv h.statusCode j).Error = "" →
      req.RunModel h = (decodedEnv h.statusCode j, none)) := by
  obtain ⟨fs, rfl⟩ := modelledBody_obj j hmb
  have hrun : req.RunModel h =
      classify req (decodedEnv h.statusCode (JValue.obj fs)) := by
    rw [runModel_not_anomalous req h hs hm, runBody_parsed req h _ hp,
      runDecoded_ok req h.statusCode fs hd]
  rw [hrun, classify_nonbulk req _ hnb]
  constructor
  · intro he
    rw [if_pos he]
  · intro he
    rw [if_neg (by simp [he])]

/-- The response body of the C2 witness: the spec's synthetic
`index_not_found_exception` body with status 404. -/
def c2body : JValue :=
  .obj [("error", .str "index_not_found_exception: no such index [x]"),
    ("status", .num 404)]

/-- C2 witness: the synthetic 404 body classifies as a server error with
status 404 and the body's message, and the envelope's status is the
decoded 404. -/
theorem c2_top_level_error_witness :
    Request.RunModel { Method := "DELETE" }
        { statusCode := 404, body := { raw := "", parsed := some c2body } } =
      (decodedEnv 404 c2body,
        some (GoError.search "index_not_found_exception: no such index [x]" 404)) ∧
    (decodedEnv 404 c2body).Status = 404 := by
  have hc := c2_top_level_error { Method := "DELETE" }
    { statusCode := 404, body := { raw := "", parsed := some c2body } } c2body
    (by decide) (by decide) rfl (by decide) (by decide) (by decide)
  constructor
  · exact hc.1 (by decide)
  · rfl

/-- The mismatched-body input shared by the C6 statements: `took` decoded
from a string where the envelope expects a number, followed by a regular
`error` field. -/
def c6body : JValue := .obj [("took", .str "5"), ("error", .str "boom")]

/-- The request/transport response of the C6 statements. -/
def c6resp : HttpResp := { statusCode := 200, body := { raw := "", parsed := some c6body } }

/-- C6 counterexample: on a body whose `took` is a string, the later
`error` field is still captured (best-effort decode), but the call
returns a decode error and the raw tree is NOT attached — refuting "does
not abort the whole decode; the raw tree is still attached". -/
theorem c6_decode_mismatch_counterexample :
    (Request.RunModel { Method := "GET" } c6resp).1.Error = "boom" ∧
    (Request.RunModel { Method := "GET" } c6resp).1.Raw = none ∧
    (Request.RunModel { Method := "GET" } c6resp).2 = some GoError.decode :=
  ⟨rfl, rfl, rfl⟩

/-- C6 (amended): the typed decode is best-effort field by field — fields
matching the envelope's shape are captured even after a mismatched field —
but a mismatch makes the call return the partially-filled envelope with a
decode error, and the raw tree is not attached in that case. -/
theorem c6_decode_mismatch_amended (req : Request) (h : HttpResp) (j : JValue)
    (hs : ¬(201 < h.statusCode ∧ h.statusCode < 400))
    (hm : req.Method ≠ "HEAD")
    (hp : h.body.parsed = some j)
    (_hmb : modelledBody j = true)
    (hd : (decodeResponse { Status := h.statusCode } j).2 = true) :
    req.RunModel h =
      ((decodeResponse { Status := h.statusCode } j).1, some GoError.decode) ∧
    ((decodeResponse { Status := h.statusCode } j).1).Raw = none := by
  constructor
  · rw [runModel_not_anomalous req h hs hm, runBody_parsed req h j hp,
      runDecoded_err req h.statusCode j hd]
  · rw [decodeResponse_raw]

/-- C6 witness: the amended statement at the mismatched `took` body — the
envelope still carries `boom`, the raw tree stays `none`, the call errors. -/
theorem c6_decode_mismatch_amended_witness :
    Request.RunModel { Method := "GET" } c6resp =
      ((decodeResponse { Status := 200 } c6body).1, some GoError.decode) ∧
    ((decodeResponse { Status := 200 } c6body).1).Raw = none :=
  c6_decode_mismatch_amended { Method := "GET" } c6resp c6body
    (by decide) (by decide) rfl (by decide) (by decide)

/-- C10 counterexample: a HEAD existence check answered with a 302 returns
`false` together with a NON-nil error (the raw body as a hard failure),
refuting "any other status yields false with a nil error". -/
theorem c10_anomalous_status_counterexample :
    Client.IndicesExist {} ["i"]
        { statusCode := 302, body := { raw := "moved", parsed := none } } =
      (false, some (GoError.transport "moved")) ∧
    (Client.IndicesExist {} ["i"]
        { statusCode := 302, body := { raw := "moved", parsed := none } }).2 ≠ none :=
  ⟨rfl, by decide⟩

/-- C10 (amended): `IndicesExist`/`AliasExists` report existence exactly
when the status is 200; for any status outside the anomalous
(201, 400) open interval they return `status == 200` with a nil error
(HEAD skips decoding and the envelope carries no error), while a status
strictly between 201 and 400 returns `false` with the raw body as a
non-nil hard error. -/
theorem c10_exists_checks_amended (c : Client) (idx : List String)
    (aliasName : String) (h : HttpResp) :
    (¬(201 < h.statusCode ∧ h.statusCode < 400) →
      c.IndicesExist idx h = (h.statusCode == 200, none) ∧
      c.AliasExists aliasName h = (h.statusCode == 200, none)) ∧
    (201 < h.statusCode ∧ h.statusCode < 400 →
      c.IndicesExist idx h = (false, some (GoError.transport h.body.raw)) ∧
      c.AliasExists aliasName h = (false, some (GoError.transport h.body.raw))) := by
  have hie : c.IndicesExist idx h =
      ((Request.RunModel { Conn := c, IndexList := idx, Method := "HEAD" } h).1.Status == 200,
        (Request.RunModel { Conn := c, IndexList := idx, Method := "HEAD" } h).2) := rfl
  have hae : c.AliasExists aliasName h =
      ((Request.RunModel { Conn := c, Method := "HEAD", API := "_alias/" ++ aliasName } h).1.Status == 200,
        (Request.RunModel { Conn := c, Method := "HEAD", API := "_alias/" ++ aliasName } h).2) := rfl
  constructor
  · intro hs
    constructor
    · rw [hie, runModel_head _ _ hs rfl, classify_plain _ _ rfl rfl]
    · rw [hae, runModel_head _ _ hs rfl, classify_plain _ _ rfl rfl]
  · intro hs
    have hbe : (h.statusCode == 200) = false := by
      have hne : h.statusCode ≠ 200 := by omega
      simpa using hne
    have hr1 : Request.RunModel { Conn := c, IndexList := idx, Method := "HEAD" } h =
        ({ Status := h.statusCode }, some (GoError.transport h.body.raw)) := by
      unfold Request.RunModel
      rw [if_pos (by simpa using hs)]
    have hr2 : Request.RunModel
        { Conn := c, Method := "HEAD", API := "_alias/" ++ aliasName } h =
        ({ Status := h.statusCode }, some (GoError.transport h.body.raw)) := by
      unfold Request.RunModel
      rw [if_pos (by simpa using hs)]
    constructor
    · rw [hie, hr1]
      show ((h.statusCode == 200 : Bool), some (GoError.transport h.body.raw)) =
        (false, some (GoError.transport h.body.raw))
      rw [hbe]
    · rw [hae, hr2]
      show ((h.statusCode == 200 : Bool), some (GoError.transport h.body.raw)) =
        (false, some (GoError.transport h.body.raw))
      rw [hbe]

/-- C10 witness: a 404 HEAD answer yields (false, nil), a 200 yields
(true, nil), and a 302 yields false with the hard body error. -/
theorem c10_exists_checks_amended_witness :
    Client.IndicesExist {} ["i"] { statusCode := 404, body := {} } = (false, none) ∧
    Client.AliasExists {} "al" { statusCode := 200, body := {} } = (true, none) ∧
    Client.IndicesExist {} ["i"]
        { statusCode := 302, body := { raw := "m", parsed := none } } =
      (false, some (GoError.transport "m")) := by
  refine ⟨?_, ?_, ?_⟩
  · exact ((c10_exists_checks_amended {} ["i"] "al"
      { statusCode := 404, body := {} }).1 (by decide)).1
  · exact ((c10_exists_checks_amended {} ["x"] "al"
      { statusCode := 200, body := {} }).1 (by decide)).2
  · exact ((c10_exists_checks_amended {} ["i"] "al"
      { statusCode := 302, body := { raw := "m", parsed := none } }).2 (by decide)).1

end Goes
